import Mathlib

/-!
Shallow embedding of `src/fem/element.py` (sp.fem finite-element library).

Numpy arrays hold element-wise values; all numpy operations used by the
source (`+`, `-`, `*`, `/`, `np.outer`, `np.tile`, broadcasting against
scalars) act componentwise, so every array is embedded pointwise by a
single rational number `ℚ` standing for one entry of the batch, and
array-building loops become `List ℚ` constructions.  Python floats are
embedded as `ℚ` (exact field arithmetic); Python exceptions become
`Except String` / `Option` results; Python dicts with contiguous integer
keys become `List`s read through `List.getD`.
-/

namespace SpFem

/-- The metadata attributes of class `Element` (element.py lines 23-41):
`maxdeg`, `dim`, `tdim`, `torder` and the four dof counts.  Python object
attribute state is modelled as this record, threaded explicitly through
any method that reads or writes `self`. -/
structure ElemState where
  maxdeg : ℕ
  dim : ℕ
  tdim : ℕ
  torder : ℕ
  n_dofs : ℕ
  e_dofs : ℕ
  f_dofs : ℕ
  i_dofs : ℕ
  deriving DecidableEq, Repr

/-- The external `GeometricMapping` collaborator used by `gbasis`: spatial
dimension, Jacobian `DF`, inverse Jacobian `invDF` (matrices embedded as
entry functions, pointwise per mesh element) and determinant `detDF`. -/
structure Mapping where
  dim : ℕ
  DF : ℕ → ℕ → ℚ
  invDF : ℕ → ℕ → ℚ
  detDF : ℚ

/-- `ElementH1.gbasis` (element.py lines 105-138), pointwise.  The scalar
reference basis evaluator `lb` stands for `self.lbasis`: index `i` yields
the value and (as a list over reference directions) the gradient.  In both
the dict and the array branch of the source the returned value `u` is the
reference value `phi` (the array branch merely tiles it over `tind`); the
gradient is contracted with `invDF` transposed, by explicit per-dimension
formulas; `self.dim = mapping.dim` (line 123) mutates the element state,
so the function returns the new state alongside the result; `ddu` is the
always-`None` second-derivative slot. -/
def gbasisH1 (s : ElemState) (m : Mapping) (lb : ℕ → ℚ × List ℚ)
    (i : ℕ) : ElemState × Except String (ℚ × List ℚ × Option Unit) :=
  let phi := (lb i).1
  let dphi := (lb i).2
  let s' := { s with dim := m.dim }
  (s',
    if m.dim = 1 then
      Except.ok (phi, [m.invDF 0 0 * dphi.getD 0 0], none)
    else if m.dim = 2 then
      Except.ok (phi,
        [m.invDF 0 0 * dphi.getD 0 0 + m.invDF 1 0 * dphi.getD 1 0,
         m.invDF 0 1 * dphi.getD 0 0 + m.invDF 1 1 * dphi.getD 1 0], none)
    else if m.dim = 3 then
      Except.ok (phi,
        [m.invDF 0 0 * dphi.getD 0 0 + m.invDF 1 0 * dphi.getD 1 0
           + m.invDF 2 0 * dphi.getD 2 0,
         m.invDF 0 1 * dphi.getD 0 0 + m.invDF 1 1 * dphi.getD 1 0
           + m.invDF 2 1 * dphi.getD 2 0,
         m.invDF 0 2 * dphi.getD 0 0 + m.invDF 1 2 * dphi.getD 1 0
           + m.invDF 2 2 * dphi.getD 2 0], none)
    else
      Except.error "ElementH1.gbasis: not implemented for the given dim.")

/-- `ElementH1Vec.__init__` (element.py lines 142-152): the wrapped element
copies `dim` and `maxdeg` from the scalar element and multiplies each of the
four dof counts by `dim`; `tdim`/`torder` stay at the class defaults `0`. -/
def mkVec (e : ElemState) : ElemState :=
  { maxdeg := e.maxdeg, dim := e.dim, tdim := 0, torder := 0,
    n_dofs := e.n_dofs * e.dim, e_dofs := e.e_dofs * e.dim,
    f_dofs := e.f_dofs * e.dim, i_dofs := e.i_dofs * e.dim }

/-- `ElementH1Vec.gbasis` (element.py lines 154-196), pointwise.  `d` is
`self.dim`, `lb` stands for `self.elem.lbasis`.  The global index `i` is
split as `ind = floor(i/d)`, `n = i - d*ind`; the scalar basis is read at
`ind` only.  Components `itr = 0..d-1` of `u` and `du` are filled: slot
`n` receives the scalar value and the `invDF`-transposed gradient
(dimension 2 or 3, otherwise the loop raises at `itr == n`); every other
slot receives `0*phi`, the zero gradient row having `d` entries.  A zero
`d` makes the Python float division `float(i)/float(self.dim)` raise
`ZeroDivisionError` before anything else. -/
def gbasisVec (d : ℕ) (lb : ℕ → ℚ × List ℚ) (m : Mapping) (i : ℕ) :
    Except String (List ℚ × List (List ℚ) × Option Unit) :=
  if d = 0 then Except.error "ZeroDivisionError" else
  let ind := i / d
  let n := i % d
  let phi := (lb ind).1
  let dphi := (lb ind).2
  let contr : ℕ → ℚ := fun j =>
    if m.dim = 2 then
      m.invDF 0 j * dphi.getD 0 0 + m.invDF 1 j * dphi.getD 1 0
    else
      m.invDF 0 j * dphi.getD 0 0 + m.invDF 1 j * dphi.getD 1 0
        + m.invDF 2 j * dphi.getD 2 0
  if m.dim = 2 ∨ m.dim = 3 then
    Except.ok ((List.range d).map (fun itr => if itr = n then phi else 0 * phi),
      (List.range d).map (fun itr =>
        if itr = n then (List.range m.dim).map contr
        else (List.range d).map (fun _ => 0 * phi)),
      none)
  else if n < d then
    Except.error "ElementH1Vec.gbasis: not implemented for the given dim."
  else
    Except.ok ([], [], none)

/-- The `X` argument of `ElementHdiv.gbasis`: either the batched-point-set
dict (whose contents are never read, the call failing at once) or the
array form, embedded pointwise as the two coordinates `X[0,:]`, `X[1,:]`. -/
inductive XInput where
  | dictIn : XInput
  | arrIn (x0 x1 : ℚ) : XInput

/-- `ElementHdiv.gbasis` (element.py lines 54-74), pointwise.  `lb` stands
for `self.lbasis`, returning per index a vector-valued reference basis
`(phi[0], phi[1])` and reference divergence `dphi` (or `none` for the
`KeyError` of an out-of-range dict lookup, which propagates).  Dict input
raises `NotImplementedError`; otherwise the Piola transform is applied:
`u = (DF · phi)/detDF` componentwise and `du = dphi/detDF`, `ddu = None`. -/
def gbasisHdiv (lb : ℚ → ℚ → ℕ → Option ((ℚ × ℚ) × ℚ)) (m : Mapping)
    (X : XInput) (i : ℕ) : Except String ((ℚ × ℚ) × ℚ × Option Unit) :=
  match X with
  | XInput.dictIn =>
    Except.error "Calling ElementHdiv gbasis with dict not implemented!"
  | XInput.arrIn x0 x1 =>
    match lb x0 x1 i with
    | none => Except.error "KeyError"
    | some ((phi0, phi1), dphi) =>
      Except.ok
        (((m.DF 0 0 * phi0 + m.DF 0 1 * phi1) / m.detDF,
          (m.DF 1 0 * phi0 + m.DF 1 1 * phi1) / m.detDF),
         dphi / m.detDF, none)

/-- `ElementTriRT0.lbasis` (element.py lines 82-100), pointwise: the three
lowest-order Raviart-Thomas basis vectors and their divergences; an index
outside the lambda dict raises `KeyError`, embedded as `none`. -/
def ElementTriRT0.lbasis (x y : ℚ) (i : ℕ) : Option ((ℚ × ℚ) × ℚ) :=
  match i with
  | 0 => some ((x, y - 1), 2 + 0 * x)
  | 1 => some ((x, y), 2 + 0 * x)
  | 2 => some ((-x + 1, -y), -2 + 0 * x)
  | _ => none

/-- `ElementLineP1.lbasis` (element.py lines 560-572), pointwise: the two
linear hat functions on the reference line; an index outside the lambda
dict raises `KeyError`, embedded as `none`.  The gradient is the single
1D derivative. -/
def ElementLineP1.lbasis (x : ℚ) (i : ℕ) : Option (ℚ × ℚ) :=
  match i with
  | 0 => some (1 - x, -1 + 0 * x)
  | 1 => some (x, 1 + 0 * x)
  | _ => none

/-- `ElementTriP1.lbasis` (element.py lines 579-598), pointwise: the three
linear hat functions on the reference triangle, with gradient `(dx, dy)`. -/
def ElementTriP1.lbasis (x y : ℚ) (i : ℕ) : Option (ℚ × ℚ × ℚ) :=
  match i with
  | 0 => some (1 - x - y, -1 + 0 * x, -1 + 0 * x)
  | 1 => some (x, 1 + 0 * x, 0 * x)
  | 2 => some (y, 0 * x, 1 + 0 * x)
  | _ => none

/-- `ElementTetP1.lbasis` (element.py lines 606-635), pointwise: the four
linear hat functions on the reference tetrahedron. -/
def ElementTetP1.lbasis (x y z : ℚ) (i : ℕ) : Option (ℚ × ℚ × ℚ × ℚ) :=
  match i with
  | 0 => some (1 - x - y - z, -1 + 0 * x, -1 + 0 * x, -1 + 0 * x)
  | 1 => some (x, 1 + 0 * x, 0 * x, 0 * x)
  | 2 => some (y, 0 * x, 1 + 0 * x, 0 * x)
  | 3 => some (z, 0 * x, 0 * x, 1 + 0 * x)
  | _ => none

/-- `ElementTetP2.lbasis` (element.py lines 500-553), pointwise: the ten
quadratic basis functions on the reference tetrahedron (4 vertex, 6 edge)
and their gradients. -/
def ElementTetP2.lbasis (x y z : ℚ) (i : ℕ) : Option (ℚ × ℚ × ℚ × ℚ) :=
  match i with
  | 0 => some (1 - 3*x + 2*x^2 - 3*y + 4*x*y + 2*y^2 - 3*z + 4*x*z + 4*y*z + 2*z^2,
      -3 + 4*x + 4*y + 4*z, -3 + 4*x + 4*y + 4*z, -3 + 4*x + 4*y + 4*z)
  | 1 => some (0 - 1*x + 2*x^2, -1 + 4*x, 0*x, 0*x)
  | 2 => some (0 - 1*y + 2*y^2, 0*x, -1 + 4*y, 0*x)
  | 3 => some (0 - 1*z + 2*z^2, 0*x, 0*x, -1 + 4*z)
  | 4 => some (0 + 4*x - 4*x^2 - 4*x*y - 4*x*z,
      4 - 8*x - 4*y - 4*z, -4*x, -4*x)
  | 5 => some (0 + 4*x*y, 4*y, 4*x, 0*x)
  | 6 => some (0 + 4*y - 4*x*y - 4*y^2 - 4*y*z,
      -4*y, 4 - 4*x - 8*y - 4*z, -4*y)
  | 7 => some (0 + 4*z - 4*x*z - 4*y*z - 4*z^2,
      -4*z, -4*z, 4 - 4*x - 4*y - 8*z)
  | 8 => some (0 + 4*x*z, 4*z, 0*x, 4*x)
  | 9 => some (0 + 4*y*z, 0*x, 4*z, 4*y)
  | _ => none

/-- `ElementQ1.lbasis` (element.py lines 205-225), pointwise: the four
bilinear basis functions on the reference square `[-1,1]^2`. -/
def ElementQ1.lbasis (x y : ℚ) (i : ℕ) : Option (ℚ × ℚ × ℚ) :=
  match i with
  | 0 => some ((1/4) * (1-x) * (1-y), (1/4) * (-1+y), (1/4) * (-1+x))
  | 1 => some ((1/4) * (1+x) * (1-y), (1/4) * (1-y), (1/4) * (-1-x))
  | 2 => some ((1/4) * (1+x) * (1+y), (1/4) * (1+y), (1/4) * (1+x))
  | 3 => some ((1/4) * (1-x) * (1+y), (1/4) * (-1-y), (1/4) * (1-x))
  | _ => none

/-- `ElementQ2.lbasis` (element.py lines 236-271), pointwise: the nine
biquadratic basis functions on the reference square (4 corner, 4 edge,
1 interior). -/
def ElementQ2.lbasis (x y : ℚ) (i : ℕ) : Option (ℚ × ℚ × ℚ) :=
  match i with
  | 0 => some ((1/4) * (x^2-x) * (y^2-y),
      ((-1 + 2*x) * (-1 + y) * y) / 4, ((-1 + x) * x * (-1 + 2*y)) / 4)
  | 1 => some ((1/4) * (x^2+x) * (y^2-y),
      ((1 + 2*x) * (-1 + y) * y) / 4, (x * (1 + x) * (-1 + 2*y)) / 4)
  | 2 => some ((1/4) * (x^2+x) * (y^2+y),
      ((1 + 2*x) * y * (1 + y)) / 4, (x * (1 + x) * (1 + 2*y)) / 4)
  | 3 => some ((1/4) * (x^2-x) * (y^2+y),
      ((-1 + 2*x) * y * (1 + y)) / 4, ((-1 + x) * x * (1 + 2*y)) / 4)
  | 4 => some ((1/2) * (y^2-y) * (1-x^2),
      -(x * (-1 + y) * y), -((-1 + x^2) * (-1 + 2*y)) / 2)
  | 5 => some ((1/2) * (x^2+x) * (1-y^2),
      -((1 + 2*x) * (-1 + y^2)) / 2, -(x * (1 + x) * y))
  | 6 => some ((1/2) * (y^2+y) * (1-x^2),
      -(x * y * (1 + y)), -((-1 + x^2) * (1 + 2*y)) / 2)
  | 7 => some ((1/2) * (x^2-x) * (1-y^2),
      -((-1 + 2*x) * (-1 + y^2)) / 2, -((-1 + x) * x * y))
  | 8 => some ((1-x^2) * (1-y^2), 2*x * (-1 + y^2), 2 * (-1 + x^2) * y)
  | _ => none

/-- `ElementTriP0.lbasis` (element.py lines 448-459), pointwise: the single
constant basis function on the triangle, with zero gradient. -/
def ElementTriP0.lbasis (x y : ℚ) (i : ℕ) : Option (ℚ × ℚ × ℚ) :=
  match i with
  | 0 => some (1 + 0 * x, 0 * x, 0 * x)
  | _ => none

/-- `ElementTetP0.lbasis` (element.py lines 428-442), pointwise. -/
def ElementTetP0.lbasis (x y z : ℚ) (i : ℕ) : Option (ℚ × ℚ × ℚ × ℚ) :=
  match i with
  | 0 => some (1 + 0 * x, 0 * x, 0 * x, 0 * x)
  | _ => none

/-- `ElementTriMini.lbasis` (element.py lines 470-491), pointwise: the P1
hat functions plus the interior cubic bubble `(1-x-y)*x*y`. -/
def ElementTriMini.lbasis (x y : ℚ) (i : ℕ) : Option (ℚ × ℚ × ℚ) :=
  match i with
  | 0 => some (1 - x - y, -1 + 0 * x, -1 + 0 * x)
  | 1 => some (x, 1 + 0 * x, 0 * x)
  | 2 => some (y, 0 * x, 1 + 0 * x)
  | 3 => some ((1 - x - y) * x * y, (1 - x - y) * y - x * y, (1 - x - y) * x - x * y)
  | _ => none

/-- Value component of an `lbasis` result (first slot of the returned
pair), `0` for an out-of-range index. -/
def phiVal {α : Type} (o : Option (ℚ × α)) : ℚ :=
  (o.map Prod.fst).getD 0

/-- Sum of the `ElementLineP1` basis values over its 2 local indices. -/
def sumLineP1 (x : ℚ) : ℚ :=
  ∑ i ∈ Finset.range 2, phiVal (ElementLineP1.lbasis x i)

/-- Sum of the `ElementTriP1` basis values over its 3 local indices. -/
def sumTriP1 (x y : ℚ) : ℚ :=
  ∑ i ∈ Finset.range 3, phiVal (ElementTriP1.lbasis x y i)

/-- Sum of the `ElementTetP1` basis values over its 4 local indices. -/
def sumTetP1 (x y z : ℚ) : ℚ :=
  ∑ i ∈ Finset.range 4, phiVal (ElementTetP1.lbasis x y z i)

/-- Sum of the `ElementTetP2` basis values over its 10 local indices. -/
def sumTetP2 (x y z : ℚ) : ℚ :=
  ∑ i ∈ Finset.range 10, phiVal (ElementTetP2.lbasis x y z i)

/-- Sum of the `ElementQ1` basis values over its 4 local indices. -/
def sumQ1 (x y : ℚ) : ℚ :=
  ∑ i ∈ Finset.range 4, phiVal (ElementQ1.lbasis x y i)

/-- Sum of the `ElementQ2` basis values over its 9 local indices. -/
def sumQ2 (x y : ℚ) : ℚ :=
  ∑ i ∈ Finset.range 9, phiVal (ElementQ2.lbasis x y i)

/-- Class attribute `Element.maxdeg = 0` (element.py line 26): the default
every subclass inherits unless it assigns `maxdeg` itself. -/
def Element.maxdeg : ℕ := 0

/-- `ElementTriMini` (element.py lines 464-468) assigns the misspelled
attribute `max_deg = 3` and never assigns `maxdeg`, so Python attribute
lookup of `maxdeg` resolves to the inherited `Element.maxdeg`. -/
def ElementTriMini.maxdeg : ℕ := Element.maxdeg

/-- The misspelled `max_deg` attribute of `ElementTriMini` (line 468). -/
def ElementTriMini.max_deg : ℕ := 3

/-- `ElementTriP0` (lines 444-446) likewise assigns only `max_deg = 1`,
inheriting `maxdeg` from `Element`. -/
def ElementTriP0.maxdeg : ℕ := Element.maxdeg

/-- The misspelled `max_deg` attribute of `ElementTriP0` (line 446). -/
def ElementTriP0.max_deg : ℕ := 1

/-- `ElementTetP0` (lines 424-426) likewise assigns only `max_deg = 1`,
inheriting `maxdeg` from `Element`. -/
def ElementTetP0.maxdeg : ℕ := Element.maxdeg

/-- The misspelled `max_deg` attribute of `ElementTetP0` (line 426). -/
def ElementTetP0.max_deg : ℕ := 1

/-- A triangle base element as consumed by `ElementTriDG`: the metadata
counts plus the local basis evaluator (pointwise, value and gradient). -/
structure TriElem where
  maxdeg : ℕ
  dim : ℕ
  n_dofs : ℕ
  e_dofs : ℕ
  f_dofs : ℕ
  i_dofs : ℕ
  lbasis : ℚ → ℚ → ℕ → Option (ℚ × ℚ × ℚ)

/-- `ElementTriDG` (element.py lines 415-422): `__init__` stores the base
element and sets `i_dofs = 3*elem.n_dofs + 3*elem.f_dofs + elem.i_dofs`
and `dim = 2`; all other counts and `maxdeg` stay at the `Element` class
defaults `0`; `lbasis` delegates to the base element unchanged. -/
def ElementTriDG (elem : TriElem) : TriElem :=
  { maxdeg := 0, dim := 2, n_dofs := 0, e_dofs := 0, f_dofs := 0,
    i_dofs := 3 * elem.n_dofs + 3 * elem.f_dofs + elem.i_dofs,
    lbasis := fun x y i => elem.lbasis x y i }

/-- Total local dof count of a cell with `nV` vertices, `nE` edges and
`nF` facets, per the data-model invariant
`n_dofs*#vertices + e_dofs*#edges + f_dofs*#facets + i_dofs`.
A 2D triangle cell has 3 vertices, no edge entities (edge dofs are a 3D
notion here) and 3 facets. -/
def totalLocalDofs (nV nE nF : ℕ) (e : TriElem) : ℕ :=
  e.n_dofs * nV + e.e_dofs * nE + e.f_dofs * nF + e.i_dofs

/-- `ElementTriPp.__init__` (element.py line 279): `f_dofs = np.max([p-1,0])`,
computed in `ℤ` like Python before clamping. -/
def f_dofsPp (p : ℕ) : ℕ := (max ((p : ℤ) - 1) 0).toNat

/-- `ElementTriPp.__init__` (element.py line 280):
`i_dofs = np.max([(p-1)*(p-2)/2, 0])` with Python floor division. -/
def i_dofsPp (p : ℕ) : ℕ := (max (((p : ℤ) - 1) * ((p : ℤ) - 2) / 2) 0).toNat

/-- `ElementTriPp.__init__` (element.py line 283):
`nbdofs = 3*n_dofs + 3*f_dofs + i_dofs` with `n_dofs = 1`. -/
def nbdofsPp (p : ℕ) : ℕ := 3 * 1 + 3 * f_dofsPp p + i_dofsPp p

/-- A Python loop of the shape `for k in range(c): l.append(F(l, k))`,
starting from list `init`.  Used for the dicts with contiguous integer
keys grown by `intlegpoly`. -/
def buildLoop (F : List ℚ → ℕ → ℚ) (init : List ℚ) (c : ℕ) : List ℚ :=
  (List.range c).foldl (fun l k => l ++ [F l k]) init

/-- The Legendre dict `P` of `ElementTriPp.intlegpoly` (element.py lines
289-295) for internal order bound `m` (the incremented `n` of the source):
`P[0] = 1`, `P[1] = x` when `m > 1`, then
`for i in arange(1, m): P[i+1] = ((2i+1)/(i+1))*x*P[i] - (i/(i+1))*P[i-1]`
(the loop variable `i` is `k+1` for `k` in `range(m-1)`). -/
def legendreList (x : ℚ) (m : ℕ) : List ℚ :=
  buildLoop
    (fun P k =>
      let i : ℚ := ((k + 1 : ℕ) : ℚ)
      ((2 * i + 1) / (i + 1)) * x * P.getD (k + 1) 0
        - (i / (i + 1)) * P.getD k 0)
    (if m > 1 then [1, x] else [1]) (m - 1)

/-- `ElementTriPp.intlegpoly` (element.py lines 285-310), pointwise.  The
order bound `n` is incremented to `m = n+1`; the Legendre dict `P` is
grown by `legendreList`; the integrated dict `iP` starts `iP[0] = 1`,
`iP[1] = x` when `m > 1` and grows by
`for i in arange(1, m-1): iP[i+1] = (P[i+1] - P[i-1])/(2i+1)`;
the derivative dict is `dP[0] = 0` and
`for i in arange(1, m): dP[i] = P[i-1]`.  Returns `(iP, dP)`. -/
def intlegpoly (x : ℚ) (n : ℕ) : List ℚ × List ℚ :=
  let m := n + 1
  let P := legendreList x m
  let iP := buildLoop
    (fun _ k =>
      let i : ℚ := ((k + 1 : ℕ) : ℚ)
      (P.getD (k + 2) 0 - P.getD k 0) / (2 * i + 1))
    (if m > 1 then [1, x] else [1]) (m - 2)
  let dP := [(0 : ℚ)] ++ (List.range (m - 1)).map (fun k => P.getD k 0)
  (iP, dP)

/-- Value-and-gradient triple `(phi, dphi_x, dphi_y)` returned by
`ElementTriPp.lbasis` for one basis function at one point. -/
abbrev PpVal := ℚ × ℚ × ℚ

/-- The exceptions `ElementTriPp.lbasis` can raise:
`NotImplementedError` for an `X` that is not two-dimensional (line 317)
and `IndexError` when the construction falls off the end (line 413). -/
inductive PpErr where
  | dimNotImplemented : PpErr
  | indexExhausted : PpErr
  deriving DecidableEq, Repr

/-- Result of one fuel-bounded `ElementTriPp.lbasis` evaluation: `none`
when the fuel budget is exhausted (the source has no such budget; `none`
for every fuel models a non-terminating recursion), otherwise the raised
exception or the returned triple. -/
abbrev PpRes := Option (Except PpErr PpVal)

/-- Vertex values `phi[0..2]` of `ElementTriPp.lbasis` (lines 319-322):
`phi[0] = 1-x-y`, `phi[1] = x`, `phi[2] = y`. -/
def vertexPhi (x y : ℚ) (k : ℕ) : ℚ :=
  if k = 0 then 1 - x - y else if k = 1 then x else y

/-- Vertex x-gradients `gradphi_x[0..2]` (lines 325-328). -/
def vertexGx (k : ℕ) : ℚ :=
  if k = 0 then -1 else if k = 1 then 1 else 0

/-- Vertex y-gradients `gradphi_y[0..2]` (lines 330-333). -/
def vertexGy (k : ℕ) : ℚ :=
  if k = 0 then -1 else if k = 1 then 0 else 1

/-- First endpoint `e[0,i]` of local edge `i` (line 343: edges
`(0,1), (1,2), (0,2)`). -/
def edgeEnd0 (i : ℕ) : ℕ := if i = 2 then 0 else i

/-- Second endpoint `e[1,i]` of local edge `i` (line 343). -/
def edgeEnd1 (i : ℕ) : ℕ := if i = 0 then 1 else 2

/-- The `j`-th edge basis function of edge `i` for order `p` (element.py
lines 349-365): with `eta = phi[e1]-phi[e0]` and `(P, dP) = intlegpoly(eta,
p-2)`, the value is `phi[e0]*phi[e1]*P[j]` and the gradient follows the
product rule written out in the source. -/
def edgeFun (p : ℕ) (x y : ℚ) (i j : ℕ) : PpVal :=
  let phi := vertexPhi x y
  let eta := phi (edgeEnd1 i) - phi (edgeEnd0 i)
  let detaX := vertexGx (edgeEnd1 i) - vertexGx (edgeEnd0 i)
  let detaY := vertexGy (edgeEnd1 i) - vertexGy (edgeEnd0 i)
  let Pd := intlegpoly eta (p - 2)
  let Pj := Pd.1.getD j 0
  let dPj := Pd.2.getD j 0
  (phi (edgeEnd0 i) * phi (edgeEnd1 i) * Pj,
   vertexGx (edgeEnd0 i) * phi (edgeEnd1 i) * Pj
     + vertexGx (edgeEnd1 i) * phi (edgeEnd0 i) * Pj
     + detaX * phi (edgeEnd0 i) * phi (edgeEnd1 i) * dPj,
   vertexGy (edgeEnd0 i) * phi (edgeEnd1 i) * Pj
     + vertexGy (edgeEnd1 i) * phi (edgeEnd0 i) * Pj
     + detaY * phi (edgeEnd0 i) * phi (edgeEnd1 i) * dPj)

/-- `len(P)` for the edge loop `for j in range(len(P))` (line 358): the
length of the `iP` dict returned by `intlegpoly(eta_i, p-2)`. -/
def edgeCount (p : ℕ) (x y : ℚ) (i : ℕ) : ℕ :=
  ((intlegpoly (vertexPhi x y (edgeEnd1 i) - vertexPhi x y (edgeEnd0 i))
      (p - 2)).1).length

/-- One `offset`-scanning loop of `ElementTriPp.lbasis`: starting at inner
index `j` and running `offset` over `c` slots, return `g j` as soon as
`offset == n`, else fall through with `none` (the Python
`if offset==n: return ...; offset=offset+1` pattern). -/
def scanLoop (g : ℕ → PpVal) (n : ℕ) : ℕ → ℕ → ℕ → Option PpVal
  | _, _, 0 => none
  | j, off, c + 1 =>
    if off = n then some (g j) else scanLoop g n (j + 1) (off + 1) c

/-- The `B` collection loop of the interior section (element.py lines
381-385): `for itr in range(N): B[itr] = self.lbasis(X, itr)`, each call
through the recursion callback `rec`; fuel exhaustion and exceptions of a
recursive call propagate, aborting the loop. -/
def collectB (rec : ℕ → PpRes) : List ℕ → Option (Except PpErr (List PpVal))
  | [] => some (Except.ok [])
  | itr :: rest =>
    match rec itr with
    | none => none
    | some (Except.error e) => some (Except.error e)
    | some (Except.ok v) =>
      match collectB rec rest with
      | none => none
      | some (Except.error e) => some (Except.error e)
      | some (Except.ok vs) => some (Except.ok (v :: vs))

/-- The `i`-th interior basis function (element.py lines 393-404): the
cubic bubble `phi0*phi1*phi2` times `B[i]`, with the product-rule
gradient `dbubble*B[i] + dB[i]*bubble`. -/
def interiorFun (x y : ℚ) (B : List PpVal) (k : ℕ) : PpVal :=
  let phi := vertexPhi x y
  let bubble := phi 0 * phi 1 * phi 2
  let dbx := vertexGx 0 * phi 1 * phi 2 + vertexGx 1 * phi 2 * phi 0
    + vertexGx 2 * phi 0 * phi 1
  let dby := vertexGy 0 * phi 1 * phi 2 + vertexGy 1 * phi 2 * phi 0
    + vertexGy 2 * phi 0 * phi 1
  let b := B.getD k (0, 0, 0)
  (bubble * b.1, dbx * b.1 + b.2.1 * bubble, dby * b.1 + b.2.2 * bubble)

/-- One unfolding of `ElementTriPp.lbasis` (element.py lines 312-413) for
order `p` at point `X` and index `n`; `rec` is the recursion callback
standing for `self.lbasis(X, ·)` (note: the source recurses into `self`,
of order `p`, not into the order `p-3` sub-element `pm3`, which is used
only for its `nbdofs` count, line 381).  Control flow follows the source:
raise unless `len(X) == 2`; return the vertex functions for `n <= 2`;
for `p > 1` scan the three edge blocks; for `p > 2` build `B` (the
recursive calls for `p > 3`, the constant `1` for `p == 3`) and scan the
interior block; otherwise raise `IndexError`. -/
def lbasisBody (rec : ℕ → PpRes) (p : ℕ) (X : List ℚ) (n : ℕ) : PpRes :=
  if X.length ≠ 2 then some (Except.error PpErr.dimNotImplemented) else
  let x := X.getD 0 0
  let y := X.getD 1 0
  if n ≤ 2 then
    some (Except.ok (vertexPhi x y n, vertexGx n, vertexGy n))
  else
    let edgeRes : Option PpVal :=
      if p > 1 then
        match scanLoop (edgeFun p x y 0) n 0 3 (edgeCount p x y 0) with
        | some r => some r
        | none =>
          match scanLoop (edgeFun p x y 1) n 0 (3 + edgeCount p x y 0)
              (edgeCount p x y 1) with
          | some r => some r
          | none =>
            scanLoop (edgeFun p x y 2) n 0
              (3 + edgeCount p x y 0 + edgeCount p x y 1) (edgeCount p x y 2)
      else none
    match edgeRes with
    | some r => some (Except.ok r)
    | none =>
      let offAfter :=
        if p > 1 then
          3 + edgeCount p x y 0 + edgeCount p x y 1 + edgeCount p x y 2
        else 3
      if p > 2 then
        let Bres : Option (Except PpErr (List PpVal)) :=
          if p > 3 then collectB rec (List.range (nbdofsPp (p - 3)))
          else some (Except.ok [(1, 0, 0)])
        match Bres with
        | none => none
        | some (Except.error e) => some (Except.error e)
        | some (Except.ok B) =>
          match scanLoop (interiorFun x y B) n 0 offAfter B.length with
          | some r => some (Except.ok r)
          | none => some (Except.error PpErr.indexExhausted)
      else some (Except.error PpErr.indexExhausted)

/-- Fuel-bounded `ElementTriPp.lbasis` for order `p` at point `X`:
`lbasisF p X fuel n` runs `lbasisBody` with at most `fuel` nested
`self.lbasis` activations, `none` meaning the budget ran out. -/
def lbasisF (p : ℕ) (X : List ℚ) : ℕ → ℕ → PpRes
  | 0, _ => none
  | fuel + 1, n => lbasisBody (fun itr => lbasisF p X fuel itr) p X n

/-- Claim C6: for every Lagrange element modelled here (line P1, triangle
P1, tetrahedron P1 and P2, quadrilateral Q1 and Q2), the local basis
values summed over all in-range local indices equal one at every
reference point. -/
theorem lagrange_partition_of_unity :
    (∀ x : ℚ, sumLineP1 x = 1) ∧
    (∀ x y : ℚ, sumTriP1 x y = 1) ∧
    (∀ x y z : ℚ, sumTetP1 x y z = 1) ∧
    (∀ x y z : ℚ, sumTetP2 x y z = 1) ∧
    (∀ x y : ℚ, sumQ1 x y = 1) ∧
    (∀ x y : ℚ, sumQ2 x y = 1) := by
  refine ⟨?_, ?_, ?_, ?_, ?_, ?_⟩ <;> intros <;>
    simp [sumLineP1, sumTriP1, sumTetP1, sumTetP2, sumQ1, sumQ2,
      Finset.sum_range_succ, phiVal, ElementLineP1.lbasis,
      ElementTriP1.lbasis, ElementTetP1.lbasis, ElementTetP2.lbasis,
      ElementQ1.lbasis, ElementQ2.lbasis] <;> ring

/-- Claim C9: the discontinuous wrapping reclassifies every dof of the
base element as interior: its `i_dofs` equals the total, over the base element, of the
local dof count on a triangle cell (3 vertices, no edge entities in 2D,
3 facets, one interior), its vertex, edge and facet counts are zero, and
its `lbasis` delegates to the base element unchanged at every input and
index. -/
theorem triDG_reclassifies_all_dofs_interior (elem : TriElem) :
    (ElementTriDG elem).i_dofs = totalLocalDofs 3 0 3 elem ∧
    (ElementTriDG elem).n_dofs = 0 ∧
    (ElementTriDG elem).e_dofs = 0 ∧
    (ElementTriDG elem).f_dofs = 0 ∧
    (∀ x y i, (ElementTriDG elem).lbasis x y i = elem.lbasis x y i) := by
  refine ⟨?_, rfl, rfl, rfl, fun x y i => rfl⟩
  simp [ElementTriDG, totalLocalDofs]
  ring

/-- Claim C8 (code bug): the `maxdeg` attribute actually read for
quadrature selection is the inherited `Element.maxdeg = 0` for
`ElementTriMini`, `ElementTriP0` and `ElementTetP0`, because those
classes assign the misspelled attribute `max_deg` (3, 1 and 1); yet the
Mini bubble function `lbasis(X, 3)` is not even constant (it takes the
values `1/32` and `0`), so `maxdeg = 0` is not the maximum polynomial
degree of the basis, contradicting the claimed self-consistency. -/
theorem maxdeg_attribute_misspelled_code_bug :
    ElementTriMini.maxdeg = 0 ∧ ElementTriMini.max_deg = 3 ∧
    ElementTriP0.maxdeg = 0 ∧ ElementTriP0.max_deg = 1 ∧
    ElementTetP0.maxdeg = 0 ∧ ElementTetP0.max_deg = 1 ∧
    phiVal (ElementTriMini.lbasis (1/4) (1/4) 3) = 1/32 ∧
    phiVal (ElementTriMini.lbasis 0 0 3) = 0 := by
  refine ⟨rfl, rfl, rfl, rfl, rfl, rfl, ?_, ?_⟩ <;>
    norm_num [phiVal, ElementTriMini.lbasis]


/-- Claim C1. -/
theorem h1_gbasis_transform (s : ElemState) (m : Mapping)
    (lb : ℕ → ℚ × List ℚ) (i : ℕ) :
    (m.dim = 1 → (gbasisH1 s m lb i).2 =
      Except.ok ((lb i).1, [m.invDF 0 0 * (lb i).2.getD 0 0], none)) ∧
    (m.dim = 2 → (gbasisH1 s m lb i).2 =
      Except.ok ((lb i).1,
        [m.invDF 0 0 * (lb i).2.getD 0 0 + m.invDF 1 0 * (lb i).2.getD 1 0,
         m.invDF 0 1 * (lb i).2.getD 0 0 + m.invDF 1 1 * (lb i).2.getD 1 0],
        none)) ∧
    (m.dim = 3 → (gbasisH1 s m lb i).2 =
      Except.ok ((lb i).1,
        [m.invDF 0 0 * (lb i).2.getD 0 0 + m.invDF 1 0 * (lb i).2.getD 1 0
           + m.invDF 2 0 * (lb i).2.getD 2 0,
         m.invDF 0 1 * (lb i).2.getD 0 0 + m.invDF 1 1 * (lb i).2.getD 1 0
           + m.invDF 2 1 * (lb i).2.getD 2 0,
         m.invDF 0 2 * (lb i).2.getD 0 0 + m.invDF 1 2 * (lb i).2.getD 1 0
           + m.invDF 2 2 * (lb i).2.getD 2 0],
        none)) ∧
    (m.dim ≠ 1 → m.dim ≠ 2 → m.dim ≠ 3 → (gbasisH1 s m lb i).2 =
      Except.error "ElementH1.gbasis: not implemented for the given dim.") ∧
    (∀ u du ddu, (gbasisH1 s m lb i).2 = Except.ok (u, du, ddu) →
      u = (lb i).1 ∧ ddu = none) := by
  refine ⟨fun h1 => ?_, fun h2 => ?_, fun h3 => ?_, fun n1 n2 n3 => ?_, ?_⟩
  · simp [gbasisH1, h1]
  · simp [gbasisH1, h2]
  · simp [gbasisH1, h3]
  · simp [gbasisH1, n1, n2, n3]
  · intro u du ddu h
    simp only [gbasisH1] at h
    split_ifs at h <;> simp_all

theorem h1_gbasis_transform_witness :
    (gbasisH1 ⟨0, 2, 0, 0, 1, 0, 0, 0⟩
        ⟨2, fun _ _ => 0, fun a b => (a : ℚ) + 2 * b, 1⟩
        (fun _ => (5, [7, 11])) 4).2 =
      Except.ok (5, [11, 47], none) := by
  have h := (h1_gbasis_transform ⟨0, 2, 0, 0, 1, 0, 0, 0⟩
    ⟨2, fun _ _ => 0, fun a b => (a : ℚ) + 2 * b, 1⟩
    (fun _ => (5, [7, 11])) 4).2.1 rfl
  norm_num at h
  exact h

/-- Claim C7 counterexample. -/
theorem h1_gbasis_mutates_dim_cex :
    (gbasisH1 ⟨1, 2, 0, 0, 1, 0, 0, 0⟩
        ⟨3, fun _ _ => 0, fun _ _ => 0, 1⟩ (fun _ => (0, [])) 0).1 ≠
      ⟨1, 2, 0, 0, 1, 0, 0, 0⟩ := by
  simp [gbasisH1]

/-- Claim C7 amended. -/
theorem h1_gbasis_state_effect (s s' : ElemState) (m : Mapping)
    (lb : ℕ → ℚ × List ℚ) (i : ℕ) :
    (gbasisH1 s m lb i).1 = { s with dim := m.dim } ∧
    (gbasisH1 s m lb i).2 = (gbasisH1 s' m lb i).2 ∧
    (m.dim = s.dim → (gbasisH1 s m lb i).1 = s) := by
  refine ⟨rfl, rfl, fun h => ?_⟩
  rw [show (gbasisH1 s m lb i).1 = { s with dim := m.dim } from rfl, h]

theorem h1_gbasis_state_effect_witness :
    (gbasisH1 ⟨1, 2, 0, 0, 1, 0, 0, 0⟩
        ⟨2, fun _ _ => 0, fun _ _ => 0, 1⟩ (fun _ => (0, [])) 0).1 =
      ⟨1, 2, 0, 0, 1, 0, 0, 0⟩ :=
  (h1_gbasis_state_effect ⟨1, 2, 0, 0, 1, 0, 0, 0⟩ ⟨1, 2, 0, 0, 1, 0, 0, 0⟩
    ⟨2, fun _ _ => 0, fun _ _ => 0, 1⟩ (fun _ => (0, [])) 0).2.2 rfl

/-- Claim C4. -/
theorem hdiv_gbasis_piola (m : Mapping) (x0 x1 : ℚ) (i : ℕ) (h : i < 3) :
    (∀ j : ℕ, gbasisHdiv ElementTriRT0.lbasis m XInput.dictIn j =
      Except.error "Calling ElementHdiv gbasis with dict not implemented!") ∧
    (∃ phi dphi, ElementTriRT0.lbasis x0 x1 i = some (phi, dphi) ∧
      gbasisHdiv ElementTriRT0.lbasis m (XInput.arrIn x0 x1) i =
        Except.ok
          (((m.DF 0 0 * phi.1 + m.DF 0 1 * phi.2) / m.detDF,
            (m.DF 1 0 * phi.1 + m.DF 1 1 * phi.2) / m.detDF),
           dphi / m.detDF, none)) := by
  refine ⟨fun j => rfl, ?_⟩
  interval_cases i <;> exact ⟨_, _, rfl, rfl⟩

theorem hdiv_gbasis_piola_witness :
    (0 : ℕ) < 3 ∧
    gbasisHdiv ElementTriRT0.lbasis
        ⟨2, fun a b => (1 : ℚ) + a + 2 * b, fun _ _ => 0, 2⟩
        (XInput.arrIn 3 5) 0 =
      Except.ok (((15/2 : ℚ), 11), 1, none) := by
  refine ⟨by norm_num, ?_⟩
  obtain ⟨phi, dphi, h1, h2⟩ := (hdiv_gbasis_piola
    ⟨2, fun a b => (1 : ℚ) + a + 2 * b, fun _ _ => 0, 2⟩ 3 5 0 (by norm_num)).2
  have e : (((3 : ℚ), (4 : ℚ)), (2 : ℚ)) = (phi, dphi) :=
    Option.some.inj ((show ElementTriRT0.lbasis 3 5 0 =
      some (((3 : ℚ), (4 : ℚ)), (2 : ℚ)) by norm_num [ElementTriRT0.lbasis]).symm.trans h1)
  have hphi : phi = ((3 : ℚ), 4) := (congrArg Prod.fst e).symm
  have hd : dphi = (2 : ℚ) := (congrArg Prod.snd e).symm
  rw [h2, hphi, hd]
  norm_num


/-- Reading slot `k` of a list built by mapping `f` over `range d`. -/
theorem getD_map_range {α : Type} (f : ℕ → α) (d k : ℕ) (a : α) (h : k < d) :
    ((List.range d).map f).getD k a = f k := by
  rw [List.getD_eq_getElem?_getD]
  simp [List.getElem?_map, List.getElem?_range, h]

/-- Claim C3. -/
theorem h1vec_composition :
    (∀ e : ElemState,
      (mkVec e).n_dofs = e.n_dofs * e.dim ∧ (mkVec e).e_dofs = e.e_dofs * e.dim ∧
      (mkVec e).f_dofs = e.f_dofs * e.dim ∧ (mkVec e).i_dofs = e.i_dofs * e.dim) ∧
    (∀ (d : ℕ) (lb : ℕ → ℚ × List ℚ) (m : Mapping) (i : ℕ),
      0 < d → (m.dim = 2 ∨ m.dim = 3) →
      ∃ u du, gbasisVec d lb m i = Except.ok (u, du, none) ∧
        u.length = d ∧ du.length = d ∧
        u.getD (i % d) 0 = (lb (i / d)).1 ∧
        (∀ itr, itr < d → itr ≠ i % d → u.getD itr 0 = 0) ∧
        (m.dim = 2 → du.getD (i % d) [] =
          [m.invDF 0 0 * (lb (i / d)).2.getD 0 0 + m.invDF 1 0 * (lb (i / d)).2.getD 1 0,
           m.invDF 0 1 * (lb (i / d)).2.getD 0 0 + m.invDF 1 1 * (lb (i / d)).2.getD 1 0]) ∧
        (m.dim = 3 → du.getD (i % d) [] =
          [m.invDF 0 0 * (lb (i / d)).2.getD 0 0 + m.invDF 1 0 * (lb (i / d)).2.getD 1 0
             + m.invDF 2 0 * (lb (i / d)).2.getD 2 0,
           m.invDF 0 1 * (lb (i / d)).2.getD 0 0 + m.invDF 1 1 * (lb (i / d)).2.getD 1 0
             + m.invDF 2 1 * (lb (i / d)).2.getD 2 0,
           m.invDF 0 2 * (lb (i / d)).2.getD 0 0 + m.invDF 1 2 * (lb (i / d)).2.getD 1 0
             + m.invDF 2 2 * (lb (i / d)).2.getD 2 0]) ∧
        (∀ itr, itr < d → itr ≠ i % d → du.getD itr [] = List.replicate d 0)) ∧
    (∀ (d : ℕ) (lb lb' : ℕ → ℚ × List ℚ) (m : Mapping) (i : ℕ),
      lb (i / d) = lb' (i / d) → gbasisVec d lb m i = gbasisVec d lb' m i) := by
  refine ⟨fun e => ⟨rfl, rfl, rfl, rfl⟩, ?_, ?_⟩
  · intro d lb m i hd hdim
    have hne : ¬ d = 0 := Nat.pos_iff_ne_zero.mp hd
    have hmod : i % d < d := Nat.mod_lt _ hd
    refine ⟨(List.range d).map
        (fun itr => if itr = i % d then (lb (i / d)).1 else 0 * (lb (i / d)).1),
      (List.range d).map (fun itr =>
        if itr = i % d then
          (List.range m.dim).map (fun j =>
            if m.dim = 2 then
              m.invDF 0 j * (lb (i / d)).2.getD 0 0 + m.invDF 1 j * (lb (i / d)).2.getD 1 0
            else
              m.invDF 0 j * (lb (i / d)).2.getD 0 0 + m.invDF 1 j * (lb (i / d)).2.getD 1 0
                + m.invDF 2 j * (lb (i / d)).2.getD 2 0)
        else (List.range d).map (fun _ => 0 * (lb (i / d)).1)),
      ?_, ?_, ?_, ?_, ?_, ?_, ?_, ?_⟩
    · simp only [gbasisVec, if_neg hne, if_pos hdim]
    · simp
    · simp
    · rw [getD_map_range _ _ _ _ hmod]; simp
    · intro itr hlt hne2
      rw [getD_map_range _ _ _ _ hlt]
      simp [hne2]
    · intro h2
      rw [getD_map_range _ _ _ _ hmod]
      simp [h2, List.range_succ]
    · intro h3
      rw [getD_map_range _ _ _ _ hmod]
      have : ¬ m.dim = 2 := by omega
      simp [h3, this, List.range_succ]
    · intro itr hlt hne2
      rw [getD_map_range _ _ _ _ hlt]
      simp [hne2, List.map_const']
  · intro d lb lb' m i h
    simp only [gbasisVec, h]

theorem h1vec_composition_witness :
    (0 : ℕ) < 2 ∧ ((2 : ℕ) = 2 ∨ (2 : ℕ) = 3) ∧
    (∃ u du,
      gbasisVec 2 (fun k => ((k : ℚ), [(k : ℚ) + 1, (k : ℚ) + 2]))
          ⟨2, fun _ _ => 0, fun a b => (a : ℚ) + 2 * b, 1⟩ 5 =
        Except.ok (u, du, none) ∧
      u.length = 2 ∧ du.length = 2 ∧
      u.getD (5 % 2) 0 = 2 ∧
      (∀ itr, itr < 2 → itr ≠ 5 % 2 → u.getD itr 0 = 0)) := by
  refine ⟨by norm_num, Or.inl rfl, ?_⟩
  obtain ⟨u, du, h1, h2, h3, h4, h5, _⟩ := (h1vec_composition.2.1 2
    (fun k => ((k : ℚ), [(k : ℚ) + 1, (k : ℚ) + 2]))
    ⟨2, fun _ _ => 0, fun a b => (a : ℚ) + 2 * b, 1⟩ 5 (by norm_num) (Or.inl rfl))
  exact ⟨u, du, h1, h2, h3, by simpa using h4, h5⟩


/-- Peeling the last iteration off a `buildLoop`. -/
theorem buildLoop_concat (F : List ℚ → ℕ → ℚ) (init : List ℚ) (c : ℕ) :
    buildLoop F init (c + 1) =
      buildLoop F init c ++ [F (buildLoop F init c) c] := by
  simp [buildLoop, List.range_succ]

/-- A `buildLoop` of `c` iterations appends `c` entries. -/
theorem buildLoop_length (F : List ℚ → ℕ → ℚ) (init : List ℚ) (c : ℕ) :
    (buildLoop F init c).length = init.length + c := by
  induction c with
  | zero => rfl
  | succ c ih => rw [buildLoop_concat]; simp [ih]; omega

/-- Entries already present are unchanged by further `buildLoop` iterations. -/
theorem buildLoop_getD_lt (F : List ℚ → ℕ → ℚ) (init : List ℚ) (c c' j : ℕ)
    (hcc : c ≤ c') (hj : j < init.length + c) :
    (buildLoop F init c').getD j 0 = (buildLoop F init c).getD j 0 := by
  induction c' with
  | zero => rw [Nat.le_zero.mp hcc]
  | succ c' ih =>
    rcases Nat.lt_or_ge c (c' + 1) with hlt | hge
    · have h1 : c ≤ c' := by omega
      rw [buildLoop_concat, List.getD_append]
      · exact ih h1
      · rw [buildLoop_length]; omega
    · rw [Nat.le_antisymm hcc hge]

/-- The entry appended at iteration `k` of a `buildLoop`. -/
theorem buildLoop_getD_entry (F : List ℚ → ℕ → ℚ) (init : List ℚ) (c k : ℕ)
    (hk : k < c) :
    (buildLoop F init c).getD (init.length + k) 0 =
      F (buildLoop F init k) k := by
  have h1 : (buildLoop F init (k + 1)).getD (init.length + k) 0 =
      F (buildLoop F init k) k := by
    rw [buildLoop_concat, show init.length + k = (buildLoop F init k).length by
      rw [buildLoop_length]]
    rw [List.getD_append_right _ _ _ _ (le_refl _)]
    simp
  rw [buildLoop_getD_lt F init (k + 1) c _ hk (by omega), h1]

/-- Claim C5. -/
theorem intlegpoly_recurrences (x : ℚ) (n : ℕ) :
    ((legendreList x (n + 1)).getD 0 0 = 1 ∧
     (1 ≤ n → (legendreList x (n + 1)).getD 1 0 = x) ∧
     (∀ i : ℕ, 1 ≤ i → i ≤ n →
       (legendreList x (n + 1)).getD (i + 1) 0 =
         ((2 * (i : ℚ) + 1) / ((i : ℚ) + 1)) * x * (legendreList x (n + 1)).getD i 0
           - ((i : ℚ) / ((i : ℚ) + 1)) * (legendreList x (n + 1)).getD (i - 1) 0)) ∧
    ((intlegpoly x n).1.getD 0 0 = 1 ∧
     (1 ≤ n → (intlegpoly x n).1.getD 1 0 = x) ∧
     (∀ i : ℕ, 1 ≤ i → i + 1 ≤ n →
       (intlegpoly x n).1.getD (i + 1) 0 =
         ((legendreList x (n + 1)).getD (i + 1) 0
             - (legendreList x (n + 1)).getD (i - 1) 0) / (2 * (i : ℚ) + 1))) ∧
    ((intlegpoly x n).2.getD 0 0 = 0 ∧
     (∀ i : ℕ, 1 ≤ i → i ≤ n →
       (intlegpoly x n).2.getD i 0 = (legendreList x (n + 1)).getD (i - 1) 0)) := by
  refine ⟨⟨?_, ?_, ?_⟩, ⟨?_, ?_, ?_⟩, ⟨?_, ?_⟩⟩
  · -- P[0] = 1
    by_cases hm : n + 1 > 1
    · simp only [legendreList, if_pos hm]
      rw [buildLoop_getD_lt _ _ 0 (n + 1 - 1) 0 (Nat.zero_le _) (by simp)]
      rfl
    · simp only [legendreList, if_neg hm, show n + 1 - 1 = 0 by omega]
      rfl
  · -- P[1] = x
    intro hn
    have hm : n + 1 > 1 := by omega
    simp only [legendreList, if_pos hm]
    rw [buildLoop_getD_lt _ _ 0 (n + 1 - 1) 1 (Nat.zero_le _) (by simp)]
    rfl
  · -- three-term recurrence
    intro i hi hin
    obtain ⟨k, rfl⟩ : ∃ k, i = k + 1 := ⟨i - 1, by omega⟩
    have hm : n + 1 > 1 := by omega
    simp only [legendreList, if_pos hm, Nat.add_sub_cancel]
    have hk : k < n := by omega
    have he := buildLoop_getD_entry
      (fun P k =>
        let i : ℚ := ((k + 1 : ℕ) : ℚ)
        ((2 * i + 1) / (i + 1)) * x * P.getD (k + 1) 0
          - (i / (i + 1)) * P.getD k 0)
      [1, x] n k hk
    simp only [List.length_cons, List.length_nil] at he
    rw [show k + 1 + 1 = 0 + 1 + 1 + k by omega, he]
    rw [buildLoop_getD_lt _ _ k n (k + 1) (le_of_lt hk)
        (by simp only [List.length_cons, List.length_nil]; omega),
      buildLoop_getD_lt _ _ k n k (le_of_lt hk)
        (by simp only [List.length_cons, List.length_nil]; omega)]
  · -- iP[0] = 1
    by_cases hm : n + 1 > 1
    · simp only [intlegpoly, if_pos hm]
      rw [buildLoop_getD_lt _ _ 0 (n + 1 - 2) 0 (Nat.zero_le _) (by simp)]
      rfl
    · simp only [intlegpoly, if_neg hm, show n + 1 - 2 = 0 by omega]
      rfl
  · -- iP[1] = x
    intro hn
    have hm : n + 1 > 1 := by omega
    simp only [intlegpoly, if_pos hm]
    rw [buildLoop_getD_lt _ _ 0 (n + 1 - 2) 1 (Nat.zero_le _) (by simp)]
    rfl
  · -- integration recurrence
    intro i hi hin
    obtain ⟨k, rfl⟩ : ∃ k, i = k + 1 := ⟨i - 1, by omega⟩
    have hm : n + 1 > 1 := by omega
    have hk : k < n + 1 - 2 := by omega
    simp only [intlegpoly, if_pos hm, Nat.add_sub_cancel,
      show k + 1 + 1 = k + 2 by omega]
    have he := buildLoop_getD_entry
      (fun _ k =>
        let i : ℚ := ((k + 1 : ℕ) : ℚ)
        ((legendreList x (n + 1)).getD (k + 2) 0
          - (legendreList x (n + 1)).getD k 0) / (2 * i + 1))
      [1, x] (n + 1 - 2) k hk
    simp only [List.length_cons, List.length_nil] at he
    rw [show k + 2 = 0 + 1 + 1 + k by omega, he]
    rw [show 0 + 1 + 1 + k = k + 2 by omega]
  · -- dP[0] = 0
    rfl
  · -- dP[i] = P[i-1]
    intro i hi hin
    simp only [intlegpoly]
    rw [List.getD_append_right _ _ _ _ (by simp [hi] : ([(0:ℚ)]).length ≤ i)]
    simp only [List.length_cons, List.length_nil]
    rw [getD_map_range _ _ _ _ (by omega : i - 1 < n + 1 - 1)]


theorem intlegpoly_recurrences_witness :
    (1 : ℕ) ≤ 2 ∧ (2 : ℕ) + 1 ≤ 3 ∧ (intlegpoly 2 3).1.getD 3 0 = 3 ∧
    (intlegpoly 2 3).1.getD 3 0 =
      ((legendreList 2 4).getD 3 0 - (legendreList 2 4).getD 1 0)
        / (2 * ((2 : ℕ) : ℚ) + 1) := by
  refine ⟨by norm_num, by norm_num, ?_, ?_⟩
  · norm_num [intlegpoly, legendreList, buildLoop, List.range_succ, List.foldl_cons,
      List.foldl_nil, List.getD]
  have h := (intlegpoly_recurrences 2 3).2.1.2.2 2 (by norm_num) (by norm_num)
  simpa using h


/-- The `iP` dict returned by `intlegpoly` has exactly `n+1` entries
(keys `0..n`), which is the `len(P)` driving each edge loop. -/
theorem intlegpoly_fst_length (x : ℚ) (n : ℕ) :
    ((intlegpoly x n).1).length = n + 1 := by
  cases n with
  | zero => rfl
  | succ n =>
    simp only [intlegpoly, if_pos (by omega : n + 1 + 1 > 1)]
    rw [buildLoop_length]
    simp
    omega

/-- A `scanLoop` whose window `[off, off+c)` contains `n` returns the
scanned function at inner index `j + (n - off)`. -/
theorem scanLoop_found (g : ℕ → PpVal) (n : ℕ) :
    ∀ (c j off : ℕ), off ≤ n → n < off + c →
      scanLoop g n j off c = some (g (j + (n - off))) := by
  intro c
  induction c with
  | zero => intro j off h1 h2; exact absurd h2 (by omega)
  | succ c ih =>
    intro j off h1 h2
    by_cases he : off = n
    · subst he
      simp [scanLoop]
    · have h1' : off + 1 ≤ n := by omega
      rw [scanLoop, if_neg he, ih (j + 1) (off + 1) h1' (by omega),
        show j + 1 + (n - (off + 1)) = j + (n - off) by omega]

/-- A `scanLoop` whose window misses `n` falls through with `none`. -/
theorem scanLoop_miss (g : ℕ → PpVal) (n : ℕ) :
    ∀ (c j off : ℕ), off + c ≤ n ∨ n < off →
      scanLoop g n j off c = none := by
  intro c
  induction c with
  | zero => intro j off _; rfl
  | succ c ih =>
    intro j off h
    have he : ¬ off = n := by omega
    rw [scanLoop, if_neg he, ih (j + 1) (off + 1) (by omega)]

/-- If every call in the list is fuel-exhausted or successful and at least
one is fuel-exhausted, the whole `B` collection is fuel-exhausted. -/
theorem collectB_none (rec : ℕ → PpRes) :
    ∀ l : List ℕ,
      (∀ j ∈ l, rec j = none ∨ ∃ v, rec j = some (Except.ok v)) →
      (∃ k ∈ l, rec k = none) →
      collectB rec l = none := by
  intro l
  induction l with
  | nil => intro _ h; simp at h
  | cons a t ih =>
    intro hall hex
    rcases hall a (by simp) with ha | ⟨v, hv⟩
    · simp [collectB, ha]
    · have ht : collectB rec t = none := by
        apply ih (fun j hj => hall j (by simp [hj]))
        obtain ⟨k, hk, hknone⟩ := hex
        rcases List.mem_cons.mp hk with rfl | hkt
        · rw [hv] at hknone; cases hknone
        · exact ⟨k, hkt, hknone⟩
      simp [collectB, hv, ht]

/-- For an index `n <= 2` the body returns the vertex hat function and its
constant gradient at once, touching neither the edge nor the interior
construction. -/
theorem body_vertex (rec : ℕ → PpRes) (p : ℕ) (x y : ℚ) (n : ℕ)
    (hn : n ≤ 2) :
    lbasisBody rec p [x, y] n =
      some (Except.ok (vertexPhi x y n, vertexGx n, vertexGy n)) := by
  simp [lbasisBody, hn]

/-- For `p >= 2` and an edge-block index `3 <= n < 3 + 3*(p-1)` the body
returns an edge basis function, with no recursive call. -/
theorem body_edge (rec : ℕ → PpRes) (p : ℕ) (x y : ℚ) (n : ℕ)
    (hp : 2 ≤ p) (h3 : 3 ≤ n) (hn : n < 3 + 3 * (p - 1)) :
    ∃ v, lbasisBody rec p [x, y] n = some (Except.ok v) := by
  have h2 : ¬ n ≤ 2 := by omega
  have hc : ∀ i, edgeCount p x y i = p - 1 := by
    intro i
    rw [edgeCount, intlegpoly_fst_length]
    omega
  have hp1 : p > 1 := by omega
  rcases lt_or_ge n (3 + (p - 1)) with h1 | h1
  · have e0 := scanLoop_found (edgeFun p x y 0) n (p - 1) 0 3 h3 h1
    refine ⟨edgeFun p x y 0 (0 + (n - 3)), ?_⟩
    simp [lbasisBody, h2, hc, hp1, e0]
  · have e0 := scanLoop_miss (edgeFun p x y 0) n (p - 1) 0 3 (Or.inl h1)
    rcases lt_or_ge n (3 + (p - 1) + (p - 1)) with hb | hb
    · have e1 := scanLoop_found (edgeFun p x y 1) n (p - 1) 0 (3 + (p - 1))
        h1 hb
      refine ⟨edgeFun p x y 1 (0 + (n - (3 + (p - 1)))), ?_⟩
      simp [lbasisBody, h2, hc, hp1, e0, e1]
    · have e1 := scanLoop_miss (edgeFun p x y 1) n (p - 1) 0 (3 + (p - 1))
        (Or.inl hb)
      have e2 := scanLoop_found (edgeFun p x y 2) n (p - 1) 0
        (3 + (p - 1) + (p - 1)) hb (by omega)
      refine ⟨edgeFun p x y 2 (0 + (n - (3 + (p - 1) + (p - 1)))), ?_⟩
      simp [lbasisBody, h2, hc, hp1, e0, e1, e2]

/-- At order `9` and interior index `27` the body can only be
fuel-exhausted: the edge blocks cover offsets `3..26`, and building `B`
requires `rec` at every index below `nbdofs(6) = 28`, including `27`
itself. -/
theorem body27_none (rec : ℕ → PpRes) (x y : ℚ)
    (h27 : rec 27 = none)
    (hok : ∀ j, j < 27 → rec j = none ∨ ∃ v, rec j = some (Except.ok v)) :
    lbasisBody rec 9 [x, y] 27 = none := by
  have hc : ∀ i, edgeCount 9 x y i = 8 := by
    intro i
    rw [edgeCount, intlegpoly_fst_length]
  have e0 := scanLoop_miss (edgeFun 9 x y 0) 27 8 0 3 (Or.inl (by omega))
  have e1 := scanLoop_miss (edgeFun 9 x y 1) 27 8 0 11 (Or.inl (by omega))
  have e2 := scanLoop_miss (edgeFun 9 x y 2) 27 8 0 19 (Or.inl (by omega))
  have hcol : collectB rec (List.range (nbdofsPp 6)) = none := by
    rw [show nbdofsPp 6 = 28 by rfl]
    apply collectB_none
    · intro j hj
      have hj28 : j < 28 := List.mem_range.mp hj
      rcases Nat.lt_or_ge j 27 with hl | hg
      · exact hok j hl
      · have : j = 27 := by omega
        rw [this]
        exact Or.inl h27
    · exact ⟨27, List.mem_range.mpr (by omega), h27⟩
  simp [lbasisBody, hc, e0, e1, e2, hcol]

/-- For every fuel budget, evaluating the order-9 hierarchical basis at
its first interior index `27` exhausts the budget: the source recursion
`self.lbasis(X, 27)` re-enters itself while building `B`. -/
theorem lbasisF_p9_interior_diverges (x y : ℚ) :
    ∀ fuel, lbasisF 9 [x, y] fuel 27 = none := by
  intro fuel
  induction fuel with
  | zero => rfl
  | succ f ih =>
    show lbasisBody (fun itr => lbasisF 9 [x, y] f itr) 9 [x, y] 27 = none
    apply body27_none _ _ _ ih
    intro j hj
    cases f with
    | zero => exact Or.inl rfl
    | succ f' =>
      right
      show ∃ v, lbasisBody (fun itr => lbasisF 9 [x, y] f' itr) 9 [x, y] j =
        some (Except.ok v)
      rcases le_or_lt j 2 with hv | he
      · exact ⟨_, body_vertex _ _ _ _ _ hv⟩
      · exact body_edge _ 9 x y j (by omega) he (by omega)

/-- Claim C2 (code bug): index `27` lies inside the claimed resolvable
range `[0, nbdofs(9)) = [0, 55)`, yet for order `p = 9` the recursive
construction never resolves it for any recursion budget (the source
self-recurses without progress, a `RecursionError`, instead of succeeding
or raising `IndexError`). -/
theorem triPp_lbasis_p9_diverges_code_bug :
    27 < nbdofsPp 9 ∧ (∀ fuel x y, lbasisF 9 [x, y] fuel 27 = none) :=
  ⟨by decide, fun fuel x y => lbasisF_p9_interior_diverges x y fuel⟩

/-- Claim C10: for every order `p >= 1` and any point, the first three
hierarchical basis functions are the order-independent P1 hat functions
with their constant gradients, for any positive recursion budget. -/
theorem triPp_first_three (p : ℕ) (x y : ℚ) (fuel : ℕ) (hp : 1 ≤ p) :
    lbasisF p [x, y] (fuel + 1) 0 = some (Except.ok (1 - x - y, -1, -1)) ∧
    lbasisF p [x, y] (fuel + 1) 1 = some (Except.ok (x, 1, 0)) ∧
    lbasisF p [x, y] (fuel + 1) 2 = some (Except.ok (y, 0, 1)) := by
  refine ⟨?_, ?_, ?_⟩ <;>
  · show lbasisBody _ p [x, y] _ = _
    rw [body_vertex _ _ _ _ _ (by omega)]
    simp [vertexPhi, vertexGx, vertexGy]

theorem triPp_first_three_witness :
    (1 : ℕ) ≤ 4 ∧
    lbasisF 4 [5, 7] 1 0 = some (Except.ok (-11, -1, -1)) :=
  ⟨by norm_num,
    ((triPp_first_three 4 5 7 0 (by norm_num)).1).trans (by norm_num)⟩

end SpFem
